import Mathlib

/-!
# mark: the command-line driver of the Markov-chain text generator

Shallow embedding of `main` from `src/mark.go`.

`main` is control flow around calls into the rest of package `main`
(`NewChain`, `BuildFromFile`, `NewFreqTable`, `Build`, `WriteMapToFile`,
`ReadTableFromFile`, `Generate`) and the Go standard library
(`strconv.Atoi`, `rand.Seed`, `fmt.Println`).  The package functions are not
part of the source file, so they are a parameter of the model (`Pkg`): each
may return a value or panic.  A run of `main` is its list of calls, in
order, together with how it ended.
-/

namespace Mark

/-! ## strconv.Atoi -/

/-- Width in bits of the Go type `int` (64-bit targets). -/
def intSize : Nat := 64

/-- Value of an ASCII decimal digit; `none` for every other character. -/
def digitVal (ch : Char) : Option Nat :=
  if 48 ≤ ch.toNat ∧ ch.toNat ≤ 57 then some (ch.toNat - 48) else none

/-- Accumulate decimal digits left to right; `none` at the first non-digit. -/
def parseDigits : List Char → Nat → Option Nat
  | [], n => some n
  | ch :: rest, n =>
    match digitVal ch with
    | none => none
    | some d => parseDigits rest (n * 10 + d)

/-- Go's `strconv.Atoi`: an optional sign, then one or more decimal digits,
the value within the range of `int`.  `none` stands for a non-nil `err`
(syntax or range); `main` only tests `err != nil`. -/
def Atoi (s : String) : Option Int :=
  match s.toList with
  | [] => none
  | c :: rest =>
    let digits := if c = '-' ∨ c = '+' then rest else c :: rest
    match digits with
    | [] => none
    | d :: ds =>
      match parseDigits (d :: ds) 0 with
      | none => none
      | some n =>
        if c = '-' then
          if n ≤ 2 ^ (intSize - 1) then some (-(n : Int)) else none
        else
          if n < 2 ^ (intSize - 1) then some (n : Int) else none

/-! ## Calls, panics and runs -/

/-- One call made by `main`, with the arguments it was made with.  A method
call records the state of its receiver at the time of the call. -/
inductive Event (Chain FreqTable : Type) where
  | randSeed
  | ReadTableFromFile (tableFile : String)
  | Generate (table : FreqTable) (numWords : Int)
  | Println (text : String)
  | NewChain (prefixLen : Int)
  | BuildFromFile (c : Chain) (file : String)
  | NewFreqTable (prefixLen : Int)
  | Build (table : FreqTable) (c : Chain)
  | WriteMapToFile (table : FreqTable) (outputFile : String)
  deriving DecidableEq, Repr

/-- How a run can abort. -/
inductive Panic where
  /-- Runtime error of an index expression `a[i]`. -/
  | indexOutOfRange (index length : Nat)
  /-- Runtime error of a slice expression `a[low:]`. -/
  | sliceBoundsOutOfRange (low length : Nat)
  /-- A `panic(msg)` statement of `main` itself. -/
  | message (msg : String)
  /-- A panic raised inside a called function and not recovered. -/
  | inCallee (msg : String)
  deriving DecidableEq, Repr

deriving instance DecidableEq for Except

/-- The functions of package `main` that `main` calls.  Their code is not in
`mark.go`; each either returns or panics with a message.  A method that
updates its receiver returns the receiver's new state. -/
structure Pkg (Chain FreqTable : Type) where
  ReadTableFromFile : String → Except String FreqTable
  Generate : FreqTable → Int → Except String String
  NewChain : Int → Except String Chain
  BuildFromFile : Chain → String → Except String Chain
  NewFreqTable : Int → Except String FreqTable
  Build : FreqTable → Chain → Except String FreqTable
  WriteMapToFile : FreqTable → String → Except String Unit

/-- A run: the calls made so far and either a value or the panic that
stopped it. -/
structure Run (E α : Type) where
  trace : List E
  result : Except Panic α
  deriving DecidableEq

/-- Sequencing: the second part runs only if the first did not panic. -/
def Run.bind {E α β : Type} (x : Run E α) (f : α → Run E β) : Run E β :=
  match x.result with
  | .error e => ⟨x.trace, .error e⟩
  | .ok a => ⟨x.trace ++ (f a).trace, (f a).result⟩

instance {E : Type} : Monad (Run E) where
  pure a := ⟨[], .ok a⟩
  bind := Run.bind

/-- Index expression `Args[i]`. -/
def index {E : Type} (Args : List String) (i : Nat) : Run E String :=
  match Args.get? i with
  | some a => ⟨[], .ok a⟩
  | none => ⟨[], .error (.indexOutOfRange i Args.length)⟩

/-- Slice expression `Args[low:]`. -/
def sliceFrom {E : Type} (Args : List String) (low : Nat) : Run E (List String) :=
  if low ≤ Args.length then ⟨[], .ok (Args.drop low)⟩
  else ⟨[], .error (.sliceBoundsOutOfRange low Args.length)⟩

/-- Statement `panic(msg)`. -/
def goPanic {E α : Type} (msg : String) : Run E α :=
  ⟨[], .error (.message msg)⟩

/-- A call: recorded, then it returns or its panic ends the run. -/
def call {E α : Type} (e : E) (r : Except String α) : Run E α :=
  match r with
  | .ok a => ⟨[e], .ok a⟩
  | .error msg => ⟨[e], .error (.inCallee msg)⟩

/-! ## main -/

section Main

variable {Chain FreqTable : Type}

/-- The loop `for _, file := range files { c.BuildFromFile(file) }`; `c` is
one object, its state carried from one iteration to the next. -/
def buildFiles (pkg : Pkg Chain FreqTable) (c : Chain) :
    List String → Run (Event Chain FreqTable) Chain
  | [] => pure c
  | file :: rest => do
    let c ← call (.BuildFromFile c file) (pkg.BuildFromFile c file)
    buildFiles pkg c rest

/-- Function `main` of `mark.go`; `Args` is `os.Args`. -/
def main (pkg : Pkg Chain FreqTable) (Args : List String) :
    Run (Event Chain FreqTable) Unit := do
  let command ← index Args 1
  call .randSeed (.ok ())
  if command = "Generate" ∨ command = "generate" then
    let modefile ← index Args 2
    let a ← index Args 3
    match Atoi a with
    | none => goPanic "Error while parsing to get the number of words for generating a text"
    | some n =>
      let numWords := n
      let tableFile := modefile
      let table ← call (.ReadTableFromFile tableFile) (pkg.ReadTableFromFile tableFile)
      let text ← call (.Generate table numWords) (pkg.Generate table numWords)
      call (.Println text) (.ok ())
  else if command = "Read" ∨ command = "read" then
    let a ← index Args 2
    match Atoi a with
    | none => goPanic "Error while parsing to get a prefix length"
    | some p =>
      let prefixLen := p
      let outputFile ← index Args 3
      let files ← sliceFrom Args 4
      let c ← call (.NewChain prefixLen) (pkg.NewChain prefixLen)
      let c ← buildFiles pkg c files
      let table ← call (.NewFreqTable prefixLen) (pkg.NewFreqTable prefixLen)
      let table ← call (.Build table c) (pkg.Build table c)
      call (.WriteMapToFile table outputFile) (pkg.WriteMapToFile table outputFile)
  else
    goPanic "I don't recognize this command, try Generate/generate/Read/read "

end Main

/-! ## A stand-in package for concrete runs -/

/-- State of a stand-in chain: its prefix length and the files read so far. -/
structure DemoChain where
  prefixLen : Int
  files : List String
  deriving DecidableEq, Repr

/-- State of a stand-in table: its prefix length and what it was built from. -/
structure DemoTable where
  prefixLen : Int
  source : List String
  deriving DecidableEq, Repr

/-- A package in which every call returns. -/
def demoPkg : Pkg DemoChain DemoTable where
  ReadTableFromFile := fun tableFile => .ok ⟨2, [tableFile]⟩
  Generate := fun table _ => .ok (String.intercalate " " table.source)
  NewChain := fun prefixLen => .ok ⟨prefixLen, []⟩
  BuildFromFile := fun c file => .ok ⟨c.prefixLen, c.files ++ [file]⟩
  NewFreqTable := fun prefixLen => .ok ⟨prefixLen, []⟩
  Build := fun table c => .ok ⟨table.prefixLen, c.files⟩
  WriteMapToFile := fun _ _ => .ok ()

/-- A package in which reading the file named `missing.txt` panics. -/
def strictPkg : Pkg DemoChain DemoTable where
  ReadTableFromFile := fun tableFile => .ok ⟨2, [tableFile]⟩
  Generate := fun table _ => .ok (String.intercalate " " table.source)
  NewChain := fun prefixLen => .ok ⟨prefixLen, []⟩
  BuildFromFile := fun c file =>
    if file = "missing.txt" then .error "open missing.txt: no such file or directory"
    else .ok ⟨c.prefixLen, c.files ++ [file]⟩
  NewFreqTable := fun prefixLen => .ok ⟨prefixLen, []⟩
  Build := fun table c => .ok ⟨table.prefixLen, c.files⟩
  WriteMapToFile := fun _ _ => .ok ()

/-! ## Reading a trace -/

section Trace

variable {Chain FreqTable : Type}

/-- Calls that belong to training: chain and table construction, reading an
input file, writing the table. -/
def Event.isTrainOp : Event Chain FreqTable → Bool
  | .NewChain _ => true
  | .BuildFromFile _ _ => true
  | .NewFreqTable _ => true
  | .Build _ _ => true
  | .WriteMapToFile _ _ => true
  | _ => false

/-- Calls that belong to generation: reading the table, generating, printing. -/
def Event.isGenerateOp : Event Chain FreqTable → Bool
  | .ReadTableFromFile _ => true
  | .Generate _ _ => true
  | .Println _ => true
  | _ => false

/-- Prefix lengths of the `NewChain` calls of a trace, in order. -/
def newChainCalls : List (Event Chain FreqTable) → List Int
  | [] => []
  | .NewChain p :: es => p :: newChainCalls es
  | _ :: es => newChainCalls es

/-- File arguments of the `BuildFromFile` calls of a trace, in order. -/
def buildFromFileCalls : List (Event Chain FreqTable) → List String
  | [] => []
  | .BuildFromFile _ file :: es => file :: buildFromFileCalls es
  | _ :: es => buildFromFileCalls es

/-- Output paths of the `WriteMapToFile` calls of a trace, in order. -/
def writeCalls : List (Event Chain FreqTable) → List String
  | [] => []
  | .WriteMapToFile _ outputFile :: es => outputFile :: writeCalls es
  | _ :: es => writeCalls es

/-- What the `fmt.Println` calls of a trace put on standard output: each
text followed by a newline. -/
def stdout : List (Event Chain FreqTable) → String
  | [] => ""
  | .Println text :: es => text ++ "\n" ++ stdout es
  | _ :: es => stdout es

/-- The panic is a runtime bounds error of an index or slice expression. -/
def Panic.isBounds : Panic → Bool
  | .indexOutOfRange _ _ => true
  | .sliceBoundsOutOfRange _ _ => true
  | _ => false

/-- A run that never ends in a runtime bounds error. -/
def BoundsFree {E α : Type} (x : Run E α) : Prop :=
  ∀ e, x.result = .error e → e.isBounds = false

/-- A run in which `main` raises no panic of its own: if it aborts, then on
a panic raised inside a called function. -/
def CalleeOnly {E α : Type} (x : Run E α) : Prop :=
  ∀ e, x.result = .error e → ∃ m, e = .inCallee m

/-- Every call of the list is a `BuildFromFile` call. -/
def OnlyBuilds (tr : List (Event Chain FreqTable)) : Prop :=
  ∀ e ∈ tr, ∃ c file, e = .BuildFromFile c file

/-- Prefix lengths of the `NewFreqTable` calls of a trace, in order. -/
def newFreqTableCalls : List (Event Chain FreqTable) → List Int
  | [] => []
  | .NewFreqTable p :: es => p :: newFreqTableCalls es
  | _ :: es => newFreqTableCalls es

/-- The part of a trace from its first `NewFreqTable` call on; empty when
the trace has none. -/
def fromTableCreation : List (Event Chain FreqTable) → List (Event Chain FreqTable)
  | [] => []
  | .NewFreqTable p :: es => .NewFreqTable p :: es
  | _ :: es => fromTableCreation es

/-- The trace works on one chain object.  `cur` is the state of the chain
created last (`none` before `NewChain`, or when a call on it panicked): the
receiver of every `BuildFromFile` call and the chain argument of every
`Build` call is that state, and a `BuildFromFile` call leaves the state it
returns. -/
def SameChain (pkg : Pkg Chain FreqTable) :
    Option Chain → List (Event Chain FreqTable) → Prop
  | _, [] => True
  | _, .NewChain p :: es => SameChain pkg (pkg.NewChain p).toOption es
  | cur, .BuildFromFile c file :: es =>
    cur = some c ∧ SameChain pkg (pkg.BuildFromFile c file).toOption es
  | cur, .Build _ c :: es => cur = some c ∧ SameChain pkg cur es
  | cur, _ :: es => SameChain pkg cur es

/-- The trace works on one table object.  `cur` is the state of the table
created last: the receiver of every `Build` and `WriteMapToFile` call is
that state, and a `Build` call leaves the state it returns. -/
def SameTable (pkg : Pkg Chain FreqTable) :
    Option FreqTable → List (Event Chain FreqTable) → Prop
  | _, [] => True
  | _, .NewFreqTable p :: es => SameTable pkg (pkg.NewFreqTable p).toOption es
  | cur, .Build table c :: es =>
    cur = some table ∧ SameTable pkg (pkg.Build table c).toOption es
  | cur, .WriteMapToFile table _ :: es => cur = some table ∧ SameTable pkg cur es
  | cur, _ :: es => SameTable pkg cur es

/-- The last three statements of the train branch of `main` (creating,
building and writing the table) as a run of their own, for the chain `c` the
loop left; `main_train_unfold` shows that `main` ends with them. -/
def tableSteps (pkg : Pkg Chain FreqTable) (p : Int) (c : Chain) (outputFile : String) :
    Run (Event Chain FreqTable) Unit :=
  Run.bind (call (.NewFreqTable p) (pkg.NewFreqTable p)) fun table =>
  Run.bind (call (.Build table c) (pkg.Build table c)) fun table =>
  call (.WriteMapToFile table outputFile) (pkg.WriteMapToFile table outputFile)

/-- The chain left by `BuildFromFile` on each of `files` in turn, starting
from `c`; the first panic, if any. -/
def chainAfter (pkg : Pkg Chain FreqTable) (c : Chain) (files : List String) :
    Except String Chain :=
  files.foldlM (fun c file => pkg.BuildFromFile c file) c

end Trace

/-! ## Basic facts about runs -/

section Lemmas

variable {Chain FreqTable E α β : Type}

@[simp] theorem bind_run (x : Run E α) (f : α → Run E β) : x >>= f = Run.bind x f := rfl

@[simp] theorem pure_run (a : α) : (pure a : Run E α) = ⟨[], .ok a⟩ := rfl

@[simp] theorem bind_mk_ok (tr : List E) (a : α) (f : α → Run E β) :
    Run.bind ⟨tr, .ok a⟩ f = ⟨tr ++ (f a).trace, (f a).result⟩ := rfl

@[simp] theorem bind_mk_error (tr : List E) (e : Panic) (f : α → Run E β) :
    Run.bind ⟨tr, .error e⟩ f = ⟨tr, .error e⟩ := rfl

@[simp] theorem call_ok (e : E) (a : α) : call e (.ok a : Except String α) = ⟨[e], .ok a⟩ := rfl

@[simp] theorem call_error (e : E) (m : String) :
    call e (.error m : Except String α) = ⟨[e], .error (.inCallee m)⟩ := rfl

end Lemmas

section Claims

variable {Chain FreqTable : Type}

theorem boundsFree_bind {E α β : Type} (x : Run E α) (f : α → Run E β)
    (hx : BoundsFree x) (hf : ∀ a, BoundsFree (f a)) : BoundsFree (Run.bind x f) := by
  obtain ⟨tr, res⟩ := x
  cases res with
  | error e => intro p hp; exact hx p (by simpa [Run.bind] using hp)
  | ok a => intro p hp; exact hf a p (by simpa [Run.bind] using hp)

theorem boundsFree_call {E α : Type} (e : E) (r : Except String α) : BoundsFree (call e r) := by
  intro p hp
  cases r with
  | ok a => simp [call] at hp
  | error m => simp [call] at hp; subst hp; rfl

theorem boundsFree_buildFiles (pkg : Pkg Chain FreqTable) (files : List String) (c : Chain) :
    BoundsFree (buildFiles pkg c files) := by
  induction files generalizing c with
  | nil => intro p hp; simp [buildFiles] at hp
  | cons file rest ih =>
    simp only [buildFiles, bind_run]
    exact boundsFree_bind _ _ (boundsFree_call _ _) (fun a => ih a)

/-- Unfolding of `main` in generate mode with a parseable word count. -/
theorem main_generate_unfold (pkg : Pkg Chain FreqTable) (prog command tableFile a : String)
    (rest : List String) (n : Int)
    (hcmd : command = "Generate" ∨ command = "generate") (hn : Atoi a = some n) :
    main pkg (prog :: command :: tableFile :: a :: rest) =
      Run.bind ⟨[.randSeed], .ok ()⟩ fun _ =>
      Run.bind (call (.ReadTableFromFile tableFile) (pkg.ReadTableFromFile tableFile)) fun table =>
      Run.bind (call (.Generate table n) (pkg.Generate table n)) fun text =>
      call (.Println text) (.ok ()) := by
  simp [main, index, hcmd, hn]

/-- Unfolding of `main` in train mode with a parseable prefix length. -/
theorem main_train_unfold (pkg : Pkg Chain FreqTable) (prog command a outputFile : String)
    (files : List String) (p : Int)
    (hcmd : command = "Read" ∨ command = "read") (hp : Atoi a = some p) :
    main pkg (prog :: command :: a :: outputFile :: files) =
      Run.bind ⟨[.randSeed], .ok ()⟩ fun _ =>
      Run.bind (call (.NewChain p) (pkg.NewChain p)) fun c =>
      Run.bind (buildFiles pkg c files) fun c => tableSteps pkg p c outputFile := by
  rcases hcmd with h | h <;> subst h <;> simp [main, index, sliceFrom, hp, tableSteps]

/-! ### The loop over the input files -/

theorem buildFromFileCalls_append (a b : List (Event Chain FreqTable)) :
    buildFromFileCalls (a ++ b) = buildFromFileCalls a ++ buildFromFileCalls b := by
  induction a with
  | nil => rfl
  | cons e es ih => cases e <;> simp [buildFromFileCalls, ih]

/-- Every call of the loop is a `BuildFromFile` call. -/
theorem buildFiles_only_builds (pkg : Pkg Chain FreqTable) (files : List String) (c : Chain) :
    ∀ e ∈ (buildFiles pkg c files).trace, ∃ c1 file, e = .BuildFromFile c1 file := by
  induction files generalizing c with
  | nil => simp [buildFiles]
  | cons file rest ih =>
    cases h : pkg.BuildFromFile c file with
    | error m => simp [buildFiles, h]
    | ok c1 =>
      intro e he
      simp only [buildFiles, h, bind_run, call_ok, bind_mk_ok, List.singleton_append,
        List.mem_cons] at he
      rcases he with he | he
      · exact ⟨c, file, he⟩
      · exact ih c1 e he

/-- The loop takes the files in order and stops at the first panic. -/
theorem buildFiles_calls_in_order (pkg : Pkg Chain FreqTable) (files : List String) (c : Chain) :
    buildFromFileCalls (buildFiles pkg c files).trace <+: files := by
  induction files generalizing c with
  | nil => simp [buildFiles, buildFromFileCalls]
  | cons file rest ih =>
    cases h : pkg.BuildFromFile c file with
    | error m => simp [buildFiles, h, buildFromFileCalls, List.prefix_cons_inj]
    | ok c1 =>
      simp only [buildFiles, h, bind_run, call_ok, bind_mk_ok, List.singleton_append,
        buildFromFileCalls]
      exact (List.prefix_cons_inj file).mpr (ih c1)

/-- A loop that comes to its end has taken every file, and leaves the chain
that `chainAfter` computes. -/
theorem buildFiles_ok (pkg : Pkg Chain FreqTable) (files : List String) (c c1 : Chain)
    (h : (buildFiles pkg c files).result = .ok c1) :
    buildFromFileCalls (buildFiles pkg c files).trace = files ∧
      chainAfter pkg c files = .ok c1 := by
  induction files generalizing c with
  | nil =>
    simp [buildFiles] at h
    subst h
    simp [buildFiles, buildFromFileCalls, chainAfter]
    rfl
  | cons file rest ih =>
    cases hb : pkg.BuildFromFile c file with
    | error m => simp [buildFiles, hb] at h
    | ok c2 =>
      simp only [buildFiles, hb, bind_run, call_ok, bind_mk_ok] at h
      have := ih c2 h
      simp only [buildFiles, hb, bind_run, call_ok, bind_mk_ok, List.singleton_append,
        buildFromFileCalls, this.1, chainAfter, List.foldlM_cons, true_and]
      simpa [chainAfter, bind, Except.bind] using this.2

theorem calleeOnly_bind {E α β : Type} (x : Run E α) (f : α → Run E β)
    (hx : CalleeOnly x) (hf : ∀ a, CalleeOnly (f a)) : CalleeOnly (Run.bind x f) := by
  obtain ⟨tr, res⟩ := x
  cases res with
  | error e => intro p hp; exact hx p (by simpa [Run.bind] using hp)
  | ok a => intro p hp; exact hf a p (by simpa [Run.bind] using hp)

theorem calleeOnly_call {E α : Type} (e : E) (r : Except String α) : CalleeOnly (call e r) := by
  intro p hp
  cases r with
  | ok a => simp [call] at hp
  | error m => simp [call] at hp; exact ⟨m, hp.symm⟩

theorem calleeOnly_buildFiles (pkg : Pkg Chain FreqTable) (files : List String) (c : Chain) :
    CalleeOnly (buildFiles pkg c files) := by
  induction files generalizing c with
  | nil => intro p hp; simp [buildFiles] at hp
  | cons file rest ih =>
    simp only [buildFiles, bind_run]
    exact calleeOnly_bind _ _ (calleeOnly_call _ _) (fun a => ih a)

/-- In train mode with a parseable prefix length `main` raises no panic of
its own. -/
theorem main_train_calleeOnly (pkg : Pkg Chain FreqTable) (prog command a outputFile : String)
    (files : List String) (p : Int)
    (hcmd : command = "Read" ∨ command = "read") (hp : Atoi a = some p) :
    CalleeOnly (main pkg (prog :: command :: a :: outputFile :: files)) := by
  rw [main_train_unfold pkg prog command a outputFile files p hcmd hp]
  refine calleeOnly_bind _ _ ?_ fun _ => calleeOnly_bind _ _ (calleeOnly_call _ _) fun _ =>
    calleeOnly_bind _ _ (calleeOnly_buildFiles _ _ _) fun _ =>
    calleeOnly_bind _ _ (calleeOnly_call _ _) fun _ =>
    calleeOnly_bind _ _ (calleeOnly_call _ _) fun _ => calleeOnly_call _ _
  intro e he; simp at he

/-- In generate mode with a parseable word count `main` raises no panic of
its own. -/
theorem main_generate_calleeOnly (pkg : Pkg Chain FreqTable) (prog command tableFile a : String)
    (rest : List String) (n : Int)
    (hcmd : command = "Generate" ∨ command = "generate") (hn : Atoi a = some n) :
    CalleeOnly (main pkg (prog :: command :: tableFile :: a :: rest)) := by
  rw [main_generate_unfold pkg prog command tableFile a rest n hcmd hn]
  refine calleeOnly_bind _ _ ?_ fun _ => calleeOnly_bind _ _ (calleeOnly_call _ _) fun _ =>
    calleeOnly_bind _ _ (calleeOnly_call _ _) fun _ => calleeOnly_call _ _
  intro e he; simp at he

/-! ### Traces that hold a block of `BuildFromFile` calls -/

theorem onlyBuilds_cons {e : Event Chain FreqTable} {es : List (Event Chain FreqTable)}
    (h : OnlyBuilds (e :: es)) : (∃ c file, e = .BuildFromFile c file) ∧ OnlyBuilds es :=
  ⟨h e (List.mem_cons_self _ _), fun x hx => h x (List.mem_cons_of_mem _ hx)⟩

theorem newChainCalls_builds (B l : List (Event Chain FreqTable)) (hB : OnlyBuilds B) :
    newChainCalls (B ++ l) = newChainCalls l := by
  induction B with
  | nil => rfl
  | cons e es ih =>
    obtain ⟨⟨c, file, rfl⟩, hes⟩ := onlyBuilds_cons hB
    simpa [newChainCalls] using ih hes

theorem newFreqTableCalls_builds (B l : List (Event Chain FreqTable)) (hB : OnlyBuilds B) :
    newFreqTableCalls (B ++ l) = newFreqTableCalls l := by
  induction B with
  | nil => rfl
  | cons e es ih =>
    obtain ⟨⟨c, file, rfl⟩, hes⟩ := onlyBuilds_cons hB
    simpa [newFreqTableCalls] using ih hes

theorem writeCalls_builds (B l : List (Event Chain FreqTable)) (hB : OnlyBuilds B) :
    writeCalls (B ++ l) = writeCalls l := by
  induction B with
  | nil => rfl
  | cons e es ih =>
    obtain ⟨⟨c, file, rfl⟩, hes⟩ := onlyBuilds_cons hB
    simpa [writeCalls] using ih hes

theorem fromTableCreation_builds (B l : List (Event Chain FreqTable)) (hB : OnlyBuilds B) :
    fromTableCreation (B ++ l) = fromTableCreation l := by
  induction B with
  | nil => rfl
  | cons e es ih =>
    obtain ⟨⟨c, file, rfl⟩, hes⟩ := onlyBuilds_cons hB
    simpa [fromTableCreation] using ih hes

theorem sameTable_builds (pkg : Pkg Chain FreqTable) (cur : Option FreqTable)
    (B l : List (Event Chain FreqTable)) (hB : OnlyBuilds B) :
    SameTable pkg cur (B ++ l) ↔ SameTable pkg cur l := by
  induction B with
  | nil => rfl
  | cons e es ih =>
    obtain ⟨⟨c, file, rfl⟩, hes⟩ := onlyBuilds_cons hB
    simpa [SameTable] using ih hes

theorem isGenerateOp_builds (B : List (Event Chain FreqTable)) (hB : OnlyBuilds B) :
    ∀ e ∈ B, e.isGenerateOp = false := by
  intro e he
  obtain ⟨c, file, rfl⟩ := hB e he
  rfl

/-- The calls of the loop work on the chain it was started with, and what
follows the loop works on the chain it leaves. -/
theorem sameChain_buildFiles (pkg : Pkg Chain FreqTable) (files : List String) (c : Chain)
    (tail : List (Event Chain FreqTable))
    (hok : ∀ c1, (buildFiles pkg c files).result = .ok c1 → SameChain pkg (some c1) tail)
    (herr : ∀ e, (buildFiles pkg c files).result = .error e → tail = []) :
    SameChain pkg (some c) ((buildFiles pkg c files).trace ++ tail) := by
  induction files generalizing c with
  | nil => simpa [buildFiles] using hok c (by simp [buildFiles])
  | cons file rest ih =>
    cases hb : pkg.BuildFromFile c file with
    | error m =>
      have : tail = [] := herr (.inCallee m) (by simp [buildFiles, hb])
      subst this
      simp [buildFiles, hb, SameChain]
    | ok c2 =>
      simp only [buildFiles, hb, bind_run, call_ok, bind_mk_ok] at hok herr
      simp only [buildFiles, hb, bind_run, call_ok, bind_mk_ok, List.singleton_append,
        List.cons_append, SameChain, true_and, Except.toOption]
      exact ih c2 hok herr

/-- If every `BuildFromFile` call returns, the loop comes to its end. -/
theorem buildFiles_of_chainAfter (pkg : Pkg Chain FreqTable) (files : List String) (c c1 : Chain)
    (h : chainAfter pkg c files = .ok c1) : (buildFiles pkg c files).result = .ok c1 := by
  induction files generalizing c with
  | nil =>
    have : c = c1 := by
      simpa [chainAfter, pure, Except.pure] using h
    simp [buildFiles, this]
  | cons file rest ih =>
    cases hb : pkg.BuildFromFile c file with
    | error m => simp [chainAfter, hb, bind, Except.bind] at h
    | ok c2 =>
      simp only [buildFiles, hb, bind_run, call_ok, bind_mk_ok]
      apply ih c2
      simpa [chainAfter, hb, bind, Except.bind] using h

theorem bind_of_error {E α β : Type} (x : Run E α) (f : α → Run E β) (e : Panic)
    (h : x.result = .error e) : Run.bind x f = ⟨x.trace, .error e⟩ := by
  simp [Run.bind, h]

theorem bind_of_ok {E α β : Type} (x : Run E α) (f : α → Run E β) (a : α)
    (h : x.result = .ok a) : Run.bind x f = ⟨x.trace ++ (f a).trace, (f a).result⟩ := by
  simp [Run.bind, h]

/-- The three table steps that follow the loop make no chain call of their
own and pass the chain `c` on to `Build` unchanged. -/
theorem tableSteps_chain (pkg : Pkg Chain FreqTable) (p : Int) (c : Chain) (outputFile : String) :
    newChainCalls (tableSteps pkg p c outputFile).trace = [] ∧
    buildFromFileCalls (tableSteps pkg p c outputFile).trace = [] ∧
    SameChain pkg (some c) (tableSteps pkg p c outputFile).trace := by
  cases h1 : pkg.NewFreqTable p with
  | error m => simp [tableSteps, h1, newChainCalls, buildFromFileCalls, SameChain]
  | ok t =>
    cases h2 : pkg.Build t c with
    | error m => simp [tableSteps, h1, h2, newChainCalls, buildFromFileCalls, SameChain]
    | ok t1 =>
      cases h3 : pkg.WriteMapToFile t1 outputFile with
      | error m => simp [tableSteps, h1, h2, h3, newChainCalls, buildFromFileCalls, SameChain]
      | ok u => simp [tableSteps, h1, h2, h3, newChainCalls, buildFromFileCalls, SameChain]

/-- The three table steps that follow the loop: one table is created with
prefix length `p`, built and written, each step on the table the step before
left; no input file is read and nothing is generated. -/
theorem tableSteps_table (pkg : Pkg Chain FreqTable) (p : Int) (c : Chain) (outputFile : String) :
    newFreqTableCalls (tableSteps pkg p c outputFile).trace = [p] ∧
    (writeCalls (tableSteps pkg p c outputFile).trace = [] ∨
     writeCalls (tableSteps pkg p c outputFile).trace
        = [outputFile]) ∧
    buildFromFileCalls (fromTableCreation
      (tableSteps pkg p c outputFile).trace) = [] ∧
    SameTable pkg none (tableSteps pkg p c outputFile).trace ∧
    (∀ e ∈ (tableSteps pkg p c outputFile).trace,
      e.isGenerateOp = false) := by
  cases h1 : pkg.NewFreqTable p with
  | error m =>
    simp [tableSteps, h1, newFreqTableCalls, writeCalls, fromTableCreation, buildFromFileCalls,
      SameTable, Event.isGenerateOp]
  | ok t =>
    cases h2 : pkg.Build t c with
    | error m =>
      simp [tableSteps, h1, h2, newFreqTableCalls, writeCalls, fromTableCreation, buildFromFileCalls,
        SameTable, Event.isGenerateOp, Except.toOption]
    | ok t1 =>
      cases h3 : pkg.WriteMapToFile t1 outputFile with
      | error m =>
        simp [tableSteps, h1, h2, h3, newFreqTableCalls, writeCalls, fromTableCreation, buildFromFileCalls,
          SameTable, Event.isGenerateOp, Except.toOption]
      | ok u =>
        simp [tableSteps, h1, h2, h3, newFreqTableCalls, writeCalls, fromTableCreation, buildFromFileCalls,
          SameTable, Event.isGenerateOp, Except.toOption]

/-- A panic inside `BuildFromFile` ends the run at that call: the files after
the unreadable one are not read and no table is created or written. -/
theorem strictPkg_run_stops_at_missing_file :
    main strictPkg ["mark", "read", "2", "out.tbl", "a.txt", "missing.txt", "b.txt"] =
      ⟨[.randSeed, .NewChain 2, .BuildFromFile ⟨2, []⟩ "a.txt",
          .BuildFromFile ⟨2, ["a.txt"]⟩ "missing.txt"],
        .error (.inCallee "open missing.txt: no such file or directory")⟩ := by
  decide

/-! ## The command-line contract -/

/-- C4: when `argv[1]` is none of `Generate`, `generate`, `Read`, `read`
(compared exactly, case included), `main` seeds the random source and aborts
with the unrecognized-command panic; it makes no chain, table, file or print
call. -/
theorem main_unrecognized_command (pkg : Pkg Chain FreqTable) (prog command : String)
    (rest : List String)
    (h1 : command ≠ "Generate") (h2 : command ≠ "generate")
    (h3 : command ≠ "Read") (h4 : command ≠ "read") :
    main pkg (prog :: command :: rest) =
      ⟨[.randSeed],
        .error (.message "I don't recognize this command, try Generate/generate/Read/read ")⟩ := by
  simp [main, index, goPanic, h1, h2, h3, h4]

/-- The commands `train` and `GENERATE` are not recognized. -/
theorem main_unrecognized_command_witness :
    main demoPkg ["mark", "train", "2", "out.tbl", "a.txt"] =
        ⟨[.randSeed],
          .error (.message "I don't recognize this command, try Generate/generate/Read/read ")⟩ ∧
      main demoPkg ["mark", "GENERATE", "out.tbl", "10"] =
        ⟨[.randSeed],
          .error (.message "I don't recognize this command, try Generate/generate/Read/read ")⟩ :=
  ⟨main_unrecognized_command demoPkg "mark" "train" ["2", "out.tbl", "a.txt"]
      (by decide) (by decide) (by decide) (by decide),
    main_unrecognized_command demoPkg "mark" "GENERATE" ["out.tbl", "10"]
      (by decide) (by decide) (by decide) (by decide)⟩

/-- C5: in generate mode an `argv[3]`, and in train mode an `argv[2]`, that
`strconv.Atoi` rejects makes `main` abort with the parse-error panic of that
mode right after seeding the random source: no table or input file is read,
no chain or table is made, nothing is written or printed. -/
theorem main_parse_error_before_calls (pkg : Pkg Chain FreqTable)
    (prog command x a : String) (rest : List String) (ha : Atoi a = none) :
    ((command = "Generate" ∨ command = "generate") →
      main pkg (prog :: command :: x :: a :: rest) =
        ⟨[.randSeed], .error (.message
          "Error while parsing to get the number of words for generating a text")⟩) ∧
    ((command = "Read" ∨ command = "read") →
      main pkg (prog :: command :: a :: rest) =
        ⟨[.randSeed], .error (.message "Error while parsing to get a prefix length")⟩) := by
  constructor
  · intro hcmd
    simp [main, index, goPanic, hcmd, ha]
  · intro hcmd
    rcases hcmd with h | h <;> subst h <;> simp [main, index, goPanic, ha]

/-- The argument `ten` is rejected in both modes before any call is made. -/
theorem main_parse_error_before_calls_witness :
    main demoPkg ["mark", "generate", "out.tbl", "ten"] =
        ⟨[.randSeed], .error (.message
          "Error while parsing to get the number of words for generating a text")⟩ ∧
      main demoPkg ["mark", "Read", "ten", "out.tbl", "a.txt"] =
        ⟨[.randSeed], .error (.message "Error while parsing to get a prefix length")⟩ :=
  ⟨(main_parse_error_before_calls demoPkg "mark" "generate" "out.tbl" "ten" [] (by decide)).1
      (by decide),
    (main_parse_error_before_calls demoPkg "mark" "Read" "out.tbl" "ten" ["out.tbl", "a.txt"]
      (by decide)).2 (by decide)⟩

/-- C2: in generate mode with `argv[3]` parsing to `n`, `main` seeds the
random source, reads the table from `argv[2]`, calls `Generate(n)` on the
table read and prints the text returned once, followed by a newline; a
panic inside `ReadTableFromFile` or `Generate` ends the run there.  No call
of the run builds a chain or writes a table. -/
theorem main_generate_effects (pkg : Pkg Chain FreqTable) (prog command tableFile a : String)
    (rest : List String) (n : Int)
    (hcmd : command = "Generate" ∨ command = "generate") (hn : Atoi a = some n) :
    (∀ table text, pkg.ReadTableFromFile tableFile = .ok table →
        pkg.Generate table n = .ok text →
        main pkg (prog :: command :: tableFile :: a :: rest) =
            ⟨[.randSeed, .ReadTableFromFile tableFile, .Generate table n, .Println text],
              .ok ()⟩ ∧
          stdout (main pkg (prog :: command :: tableFile :: a :: rest)).trace = text ++ "\n") ∧
    (∀ table m, pkg.ReadTableFromFile tableFile = .ok table →
        pkg.Generate table n = .error m →
        main pkg (prog :: command :: tableFile :: a :: rest) =
          ⟨[.randSeed, .ReadTableFromFile tableFile, .Generate table n],
            .error (.inCallee m)⟩) ∧
    (∀ m, pkg.ReadTableFromFile tableFile = .error m →
        main pkg (prog :: command :: tableFile :: a :: rest) =
          ⟨[.randSeed, .ReadTableFromFile tableFile], .error (.inCallee m)⟩) ∧
    (∀ e ∈ (main pkg (prog :: command :: tableFile :: a :: rest)).trace,
        e.isTrainOp = false) := by
  rw [main_generate_unfold pkg prog command tableFile a rest n hcmd hn]
  refine ⟨?_, ?_, ?_, ?_⟩
  · intro table text hr hg
    simp [hr, hg, stdout]
  · intro table m hr hg
    simp [hr, hg]
  · intro m hr
    simp [hr]
  · cases hr : pkg.ReadTableFromFile tableFile with
    | error m => simp [Event.isTrainOp]
    | ok table =>
      cases hg : pkg.Generate table n with
      | error m => simp [hg, Event.isTrainOp]
      | ok text => simp [hg, Event.isTrainOp]

/-- A generate run of ten words from `out.tbl` with the stand-in package. -/
theorem main_generate_effects_witness :
    main demoPkg ["mark", "generate", "out.tbl", "10"] =
        ⟨[.randSeed, .ReadTableFromFile "out.tbl", .Generate ⟨2, ["out.tbl"]⟩ 10,
            .Println "out.tbl"], .ok ()⟩ ∧
      stdout (main demoPkg ["mark", "generate", "out.tbl", "10"]).trace = "out.tbl" ++ "\n" :=
  (main_generate_effects demoPkg "mark" "generate" "out.tbl" "10" [] 10
    (by decide) (by decide)).1 ⟨2, ["out.tbl"]⟩ "out.tbl" rfl rfl

/-- C1: in train mode with `argv[2]` parsing to `p`, `main` makes exactly one
`NewChain` call, with `p`; its `BuildFromFile` calls take the files of
`argv[4:]` in order, one call per file, up to the first call that panics (all
of them when every call returns); every call has as receiver the one chain
in the state the call before left it in, so the chain is never replaced or
reset between files. -/
theorem main_train_single_chain (pkg : Pkg Chain FreqTable) (prog command a outputFile : String)
    (files : List String) (p : Int)
    (hcmd : command = "Read" ∨ command = "read") (hp : Atoi a = some p) :
    newChainCalls (main pkg (prog :: command :: a :: outputFile :: files)).trace = [p] ∧
    buildFromFileCalls (main pkg (prog :: command :: a :: outputFile :: files)).trace
      <+: files ∧
    SameChain pkg none (main pkg (prog :: command :: a :: outputFile :: files)).trace ∧
    (∀ c0 c1, pkg.NewChain p = .ok c0 → chainAfter pkg c0 files = .ok c1 →
      buildFromFileCalls (main pkg (prog :: command :: a :: outputFile :: files)).trace
        = files) := by
  rw [main_train_unfold pkg prog command a outputFile files p hcmd hp]
  cases h0 : pkg.NewChain p with
  | error m => simp [newChainCalls, buildFromFileCalls, SameChain]
  | ok c0 =>
    have hB : OnlyBuilds (buildFiles pkg c0 files).trace := buildFiles_only_builds pkg files c0
    have hP := buildFiles_calls_in_order pkg files c0
    cases hres : (buildFiles pkg c0 files).result with
    | error e =>
      have hne : ∀ c1, chainAfter pkg c0 files ≠ .ok c1 := by
        intro c1 h
        rw [buildFiles_of_chainAfter pkg files c0 c1 h] at hres
        cases hres
      have hS := sameChain_buildFiles pkg files c0 [] (by simp [hres]) (by simp)
      rw [List.append_nil] at hS
      have hN := newChainCalls_builds _ [] hB
      rw [List.append_nil] at hN
      simp only [call_ok, bind_mk_ok, bind_of_error _ _ e hres, List.cons_append, List.nil_append]
      simp only [newChainCalls, buildFromFileCalls, SameChain, Except.toOption, h0]
      exact ⟨by simp [hN, newChainCalls], hP, hS, fun c0 c1 h => by cases h; exact fun h => absurd h (hne c1)⟩
    | ok c1 =>
      have hO := (buildFiles_ok pkg files c0 c1 hres).1
      obtain ⟨hT1, hT2, hT3⟩ := tableSteps_chain pkg p c1 outputFile
      have hS := sameChain_buildFiles pkg files c0 _
        (fun c2 h => by rw [hres] at h; cases h; exact hT3) (fun e h => by rw [hres] at h; cases h)
      simp only [call_ok, bind_mk_ok, bind_of_ok _ _ c1 hres, List.cons_append, List.nil_append]
      simp only [newChainCalls, buildFromFileCalls, SameChain, Except.toOption, h0,
        newChainCalls_builds _ _ hB, buildFromFileCalls_append, hT1, hT2, hO, List.append_nil]
      exact ⟨trivial, List.prefix_refl _, hS, fun _ _ _ _ => trivial⟩

/-- A train run over two files: one chain, both files in order. -/
theorem main_train_single_chain_witness :
    newChainCalls (main demoPkg ["mark", "read", "2", "out.tbl", "a.txt", "b.txt"]).trace = [2] ∧
      buildFromFileCalls (main demoPkg ["mark", "read", "2", "out.tbl", "a.txt", "b.txt"]).trace
        = ["a.txt", "b.txt"] :=
  have h := main_train_single_chain demoPkg "mark" "read" "2" "out.tbl" ["a.txt", "b.txt"] 2
    (by decide) (by decide)
  ⟨h.1, h.2.2.2 ⟨2, []⟩ ⟨2, ["a.txt", "b.txt"]⟩ rfl rfl⟩

/-- C3: in train mode with `argv[2]` parsing to `p`, `main` creates at most
one table, with prefix length `p`, and only after `BuildFromFile` has been
called for every input file; no `BuildFromFile` call follows the creation of
the table; `Build` and `WriteMapToFile` act on that one table; the table is
written at most once, to `argv[3]`; no table is read and no text generated.
When every call returns, the run is the `NewChain` call, the calls of the
loop, then `NewFreqTable(p)`, `Build` with the chain the loop left, and one
`WriteMapToFile` of the built table to `argv[3]`. -/
theorem main_train_table_written_once (pkg : Pkg Chain FreqTable)
    (prog command a outputFile : String) (files : List String) (p : Int)
    (hcmd : command = "Read" ∨ command = "read") (hp : Atoi a = some p) :
    (newFreqTableCalls (main pkg (prog :: command :: a :: outputFile :: files)).trace = [] ∨
      newFreqTableCalls (main pkg (prog :: command :: a :: outputFile :: files)).trace = [p]) ∧
    (writeCalls (main pkg (prog :: command :: a :: outputFile :: files)).trace = [] ∨
      writeCalls (main pkg (prog :: command :: a :: outputFile :: files)).trace
        = [outputFile]) ∧
    (newFreqTableCalls (main pkg (prog :: command :: a :: outputFile :: files)).trace = [p] →
      buildFromFileCalls (main pkg (prog :: command :: a :: outputFile :: files)).trace
        = files) ∧
    buildFromFileCalls (fromTableCreation
      (main pkg (prog :: command :: a :: outputFile :: files)).trace) = [] ∧
    SameTable pkg none (main pkg (prog :: command :: a :: outputFile :: files)).trace ∧
    (∀ e ∈ (main pkg (prog :: command :: a :: outputFile :: files)).trace,
      e.isGenerateOp = false) ∧
    (∀ c0 c1 t t1, pkg.NewChain p = .ok c0 → chainAfter pkg c0 files = .ok c1 →
      pkg.NewFreqTable p = .ok t → pkg.Build t c1 = .ok t1 →
      pkg.WriteMapToFile t1 outputFile = .ok () →
      main pkg (prog :: command :: a :: outputFile :: files) =
        ⟨.randSeed :: .NewChain p :: ((buildFiles pkg c0 files).trace ++
            [.NewFreqTable p, .Build t c1, .WriteMapToFile t1 outputFile]), .ok ()⟩) := by
  rw [main_train_unfold pkg prog command a outputFile files p hcmd hp]
  cases h0 : pkg.NewChain p with
  | error m =>
    simp [newFreqTableCalls, writeCalls, fromTableCreation, buildFromFileCalls, SameTable,
      Event.isGenerateOp]
  | ok c0 =>
    have hB : OnlyBuilds (buildFiles pkg c0 files).trace := buildFiles_only_builds pkg files c0
    cases hres : (buildFiles pkg c0 files).result with
    | error e =>
      have hne : ∀ c1, chainAfter pkg c0 files ≠ .ok c1 := by
        intro c1 h
        rw [buildFiles_of_chainAfter pkg files c0 c1 h] at hres
        cases hres
      have hN := newFreqTableCalls_builds _ [] hB
      have hW := writeCalls_builds _ [] hB
      have hF := fromTableCreation_builds _ [] hB
      have hT := sameTable_builds pkg none _ [] hB
      rw [List.append_nil] at hN hW hF hT
      simp only [call_ok, bind_mk_ok, bind_of_error _ _ e hres, List.cons_append, List.nil_append]
      refine ⟨?_, ?_, ?_, ?_, ?_, ?_, ?_⟩
      · simp [newFreqTableCalls, hN]
      · simp [writeCalls, hW]
      · simp [newFreqTableCalls, hN]
      · simp [fromTableCreation, hF, buildFromFileCalls]
      · simpa [SameTable] using hT
      · intro ev hev
        simp only [List.mem_cons] at hev
        rcases hev with rfl | rfl | hev
        · rfl
        · rfl
        · exact isGenerateOp_builds _ hB ev hev
      · intro c0 c1 t t1 h
        cases h
        intro h
        exact absurd h (hne c1)
    | ok c1 =>
      have hO := (buildFiles_ok pkg files c0 c1 hres)
      obtain ⟨hT1, hT2, hT3, hT4, hT5⟩ := tableSteps_table pkg p c1 outputFile
      have hTb := (tableSteps_chain pkg p c1 outputFile).2.1
      simp only [call_ok, bind_mk_ok, bind_of_ok _ _ c1 hres, List.cons_append, List.nil_append]
      refine ⟨?_, ?_, ?_, ?_, ?_, ?_, ?_⟩
      · simp [newFreqTableCalls, newFreqTableCalls_builds _ _ hB, hT1]
      · simpa [writeCalls, writeCalls_builds _ _ hB] using hT2
      · intro _
        simp [buildFromFileCalls, buildFromFileCalls_append, hO.1, hTb]
      · simpa [fromTableCreation, fromTableCreation_builds _ _ hB] using hT3
      · simpa [SameTable, sameTable_builds pkg none _ _ hB] using hT4
      · intro ev hev
        simp only [List.mem_cons, List.mem_append] at hev
        rcases hev with rfl | rfl | hev | hev
        · rfl
        · rfl
        · exact isGenerateOp_builds _ hB ev hev
        · exact hT5 ev hev
      · intro c0 c2 t t1 h
        cases h
        intro h h1 h2 h3
        have hc : c2 = c1 := by
          rw [hO.2] at h
          cases h
          rfl
        subst hc
        simp [tableSteps, h1, h2, h3]

/-- A train run over two files, call by call. -/
theorem main_train_table_written_once_witness :
    main demoPkg ["mark", "read", "2", "out.tbl", "a.txt", "b.txt"] =
      ⟨[.randSeed, .NewChain 2, .BuildFromFile ⟨2, []⟩ "a.txt",
          .BuildFromFile ⟨2, ["a.txt"]⟩ "b.txt", .NewFreqTable 2,
          .Build ⟨2, []⟩ ⟨2, ["a.txt", "b.txt"]⟩,
          .WriteMapToFile ⟨2, ["a.txt", "b.txt"]⟩ "out.tbl"], .ok ()⟩ :=
  (main_train_table_written_once demoPkg "mark" "read" "2" "out.tbl" ["a.txt", "b.txt"] 2
    (by decide) (by decide)).2.2.2.2.2.2
    ⟨2, []⟩ ⟨2, ["a.txt", "b.txt"]⟩ ⟨2, []⟩ ⟨2, ["a.txt", "b.txt"]⟩ rfl rfl rfl rfl rfl

/-- C6, as the code has it: a prefix length of zero or below is not
rejected.  With `argv[2]` equal to `0` or to `-3` the run creates the chain
with that prefix length, reads the input file, writes the table and returns. -/
theorem main_train_nonpositive_prefixLen_counterexample :
    main demoPkg ["mark", "read", "0", "out.tbl", "a.txt"] =
        ⟨[.randSeed, .NewChain 0, .BuildFromFile ⟨0, []⟩ "a.txt", .NewFreqTable 0,
            .Build ⟨0, []⟩ ⟨0, ["a.txt"]⟩, .WriteMapToFile ⟨0, ["a.txt"]⟩ "out.tbl"], .ok ()⟩ ∧
      main demoPkg ["mark", "read", "-3", "out.tbl", "a.txt"] =
        ⟨[.randSeed, .NewChain (-3), .BuildFromFile ⟨-3, []⟩ "a.txt", .NewFreqTable (-3),
            .Build ⟨-3, []⟩ ⟨-3, ["a.txt"]⟩, .WriteMapToFile ⟨-3, ["a.txt"]⟩ "out.tbl"],
          .ok ()⟩ := by
  constructor <;> decide

/-- C6, amended: in train mode (an `argv` of at least three elements) `main`
aborts with the argument error exactly when `argv[2]` is not parseable, and
then before any call.  For every `argv[2]` that parses to an integer `p`,
also `p ≤ 0`: when the output path `argv[3]` is present (`len(argv) ≥ 4`),
`main` raises no panic of its own and its first call after seeding is
`NewChain(p)`; when it is absent (`len(argv) = 3`), `main` ends in the
index-out-of-range error of `os.Args[3]` and makes no `NewChain` call. -/
theorem main_train_any_prefixLen (pkg : Pkg Chain FreqTable)
    (prog command a : String) (rest : List String)
    (hcmd : command = "Read" ∨ command = "read") :
    (Atoi a = none →
      main pkg (prog :: command :: a :: rest) =
        ⟨[.randSeed], .error (.message "Error while parsing to get a prefix length")⟩) ∧
    ((main pkg (prog :: command :: a :: rest)).result =
        .error (.message "Error while parsing to get a prefix length") ↔ Atoi a = none) ∧
    (∀ p outputFile files, Atoi a = some p →
      (main pkg (prog :: command :: a :: outputFile :: files)).trace.take 2
          = [.randSeed, .NewChain p] ∧
        CalleeOnly (main pkg (prog :: command :: a :: outputFile :: files))) ∧
    (∀ p, Atoi a = some p →
      main pkg [prog, command, a] = ⟨[.randSeed], .error (.indexOutOfRange 3 3)⟩) := by
  have hnone : Atoi a = none →
      main pkg (prog :: command :: a :: rest) =
        ⟨[.randSeed], .error (.message "Error while parsing to get a prefix length")⟩ := by
    intro ha
    rcases hcmd with h | h <;> subst h <;> simp [main, index, goPanic, ha]
  have hshort : ∀ p, Atoi a = some p →
      main pkg [prog, command, a] = ⟨[.randSeed], .error (.indexOutOfRange 3 3)⟩ := by
    intro p hp
    rcases hcmd with h | h <;> subst h <;> simp [main, index, hp]
  refine ⟨hnone, ⟨?_, fun ha => by rw [hnone ha]⟩, ?_, hshort⟩
  · intro hres
    cases hp : Atoi a with
    | none => rfl
    | some p =>
      exfalso
      cases rest with
      | nil =>
        rw [hshort p hp] at hres
        cases hres
      | cons outputFile files =>
        obtain ⟨m, hm⟩ :=
          main_train_calleeOnly pkg prog command a outputFile files p hcmd hp _ hres
        cases hm
  · intro p outputFile files hp
    refine ⟨?_, main_train_calleeOnly pkg prog command a outputFile files p hcmd hp⟩
    rw [main_train_unfold pkg prog command a outputFile files p hcmd hp]
    cases h0 : pkg.NewChain p with
    | error m => simp
    | ok c0 => simp

/-- With prefix length `0` and an output path the first call after seeding is
`NewChain(0)`; without the output path the run ends in the bounds error. -/
theorem main_train_any_prefixLen_witness :
    ((main demoPkg ["mark", "read", "0", "out.tbl", "a.txt"]).trace.take 2
        = [.randSeed, .NewChain 0] ∧
      CalleeOnly (main demoPkg ["mark", "read", "0", "out.tbl", "a.txt"])) ∧
    main demoPkg ["mark", "read", "0"] = ⟨[.randSeed], .error (.indexOutOfRange 3 3)⟩ :=
  have h := main_train_any_prefixLen demoPkg "mark" "read" "0" ["out.tbl", "a.txt"] (by decide)
  ⟨h.2.2.1 0 "out.tbl" ["a.txt"] (by decide), h.2.2.2 0 (by decide)⟩

/-- C7, as the code has it: a negative word count is not rejected.  With
`argv[3]` equal to `-5` the run reads the table, calls `Generate(-5)` and
prints what it returns. -/
theorem main_generate_negative_count_counterexample :
    main demoPkg ["mark", "generate", "out.tbl", "-5"] =
      ⟨[.randSeed, .ReadTableFromFile "out.tbl", .Generate ⟨2, ["out.tbl"]⟩ (-5),
          .Println "out.tbl"], .ok ()⟩ := by
  decide

/-- C7, amended: in generate mode `main` aborts with the argument error
exactly when `argv[3]` is not parseable; for every `argv[3]` that parses to
an integer `n`, also a negative one, `main` raises no panic of its own,
reads the table file and passes `n` unchanged to `Generate`. -/
theorem main_generate_any_count (pkg : Pkg Chain FreqTable)
    (prog command tableFile a : String) (rest : List String)
    (hcmd : command = "Generate" ∨ command = "generate") :
    (Atoi a = none →
      main pkg (prog :: command :: tableFile :: a :: rest) =
        ⟨[.randSeed], .error (.message
          "Error while parsing to get the number of words for generating a text")⟩) ∧
    (∀ n, Atoi a = some n →
      (main pkg (prog :: command :: tableFile :: a :: rest)).trace.take 2
          = [.randSeed, .ReadTableFromFile tableFile] ∧
        (∀ table, pkg.ReadTableFromFile tableFile = .ok table →
          (main pkg (prog :: command :: tableFile :: a :: rest)).trace.take 3
            = [.randSeed, .ReadTableFromFile tableFile, .Generate table n]) ∧
        CalleeOnly (main pkg (prog :: command :: tableFile :: a :: rest))) := by
  constructor
  · intro ha
    simp [main, index, goPanic, hcmd, ha]
  · intro n hn
    refine ⟨?_, ?_, main_generate_calleeOnly pkg prog command tableFile a rest n hcmd hn⟩
    · rw [main_generate_unfold pkg prog command tableFile a rest n hcmd hn]
      cases hr : pkg.ReadTableFromFile tableFile with
      | error m => simp
      | ok table => simp
    · intro table hr
      rw [main_generate_unfold pkg prog command tableFile a rest n hcmd hn]
      cases hg : pkg.Generate table n with
      | error m => simp [hr, hg]
      | ok text => simp [hr, hg]

/-- With word count `-5` the table is read and `Generate(-5)` is called. -/
theorem main_generate_any_count_witness :
    (main demoPkg ["mark", "generate", "out.tbl", "-5"]).trace.take 3
      = [.randSeed, .ReadTableFromFile "out.tbl", .Generate ⟨2, ["out.tbl"]⟩ (-5)] :=
  ((main_generate_any_count demoPkg "mark" "generate" "out.tbl" "-5" [] (by decide)).2 (-5)
    (by decide)).2.1 ⟨2, ["out.tbl"]⟩ rfl

/-- C8, as the code has it: an empty list of input files is not rejected.
With `len(argv) = 4` the run creates the chain, reads no file, builds the
table from the empty chain, writes it to the output path and returns. -/
theorem main_train_no_files_counterexample :
    main demoPkg ["mark", "read", "2", "out.tbl"] =
      ⟨[.randSeed, .NewChain 2, .NewFreqTable 2, .Build ⟨2, []⟩ ⟨2, []⟩,
          .WriteMapToFile ⟨2, []⟩ "out.tbl"], .ok ()⟩ := by
  decide

/-- C8, amended: in train mode with a parseable prefix length `p`, an output
path and no input file (`len(argv) = 4`), `main` raises no panic of its own
and makes no `BuildFromFile` call; when `NewChain`, `NewFreqTable` and
`Build` return, it builds the table from the chain just created and calls
`WriteMapToFile` once, with the path `argv[3]`, and it returns normally
exactly when that call returns. -/
theorem main_train_no_files (pkg : Pkg Chain FreqTable)
    (prog command a outputFile : String) (p : Int)
    (hcmd : command = "Read" ∨ command = "read") (hp : Atoi a = some p) :
    CalleeOnly (main pkg [prog, command, a, outputFile]) ∧
    buildFromFileCalls (main pkg [prog, command, a, outputFile]).trace = [] ∧
    (∀ c0 t t1, pkg.NewChain p = .ok c0 → pkg.NewFreqTable p = .ok t →
      pkg.Build t c0 = .ok t1 →
      (main pkg [prog, command, a, outputFile]).trace =
          [.randSeed, .NewChain p, .NewFreqTable p, .Build t c0,
            .WriteMapToFile t1 outputFile] ∧
        ((main pkg [prog, command, a, outputFile]).result = .ok () ↔
          pkg.WriteMapToFile t1 outputFile = .ok ())) := by
  refine ⟨main_train_calleeOnly pkg prog command a outputFile [] p hcmd hp, ?_, ?_⟩
  · rw [main_train_unfold pkg prog command a outputFile [] p hcmd hp]
    cases h0 : pkg.NewChain p with
    | error m => simp [buildFromFileCalls]
    | ok c0 =>
      have h := (tableSteps_chain pkg p c0 outputFile).2.1
      simpa [buildFiles, buildFromFileCalls] using h
  · intro c0 t t1 h0 h1 h2
    rw [main_train_unfold pkg prog command a outputFile [] p hcmd hp]
    cases h3 : pkg.WriteMapToFile t1 outputFile with
    | error m => simp [buildFiles, tableSteps, h0, h1, h2, h3]
    | ok u => simp [buildFiles, tableSteps, h0, h1, h2, h3]

/-- A train run without input files still writes the table. -/
theorem main_train_no_files_witness :
    (main demoPkg ["mark", "read", "2", "out.tbl"]).trace =
        [.randSeed, .NewChain 2, .NewFreqTable 2, .Build ⟨2, []⟩ ⟨2, []⟩,
          .WriteMapToFile ⟨2, []⟩ "out.tbl"] ∧
      ((main demoPkg ["mark", "read", "2", "out.tbl"]).result = .ok () ↔
        demoPkg.WriteMapToFile ⟨2, []⟩ "out.tbl" = .ok ()) :=
  (main_train_no_files demoPkg "mark" "read" "2" "out.tbl" 2 (by decide) (by decide)).2.2
    ⟨2, []⟩ ⟨2, []⟩ ⟨2, []⟩ rfl rfl rfl

/-- C9, as the code has it: `main` takes no `-prefix` or `-words` flag.  With
`argv = [prog, "-prefix", p, "-words", w]` the command word is `-prefix`,
which is none of the four commands: `main` aborts with the
unrecognized-command panic, builds no chain and generates nothing. -/
theorem main_flag_arguments_unrecognized (pkg : Pkg Chain FreqTable) (prog p w : String) :
    main pkg [prog, "-prefix", p, "-words", w] =
      ⟨[.randSeed],
        .error (.message "I don't recognize this command, try Generate/generate/Read/read ")⟩ := by
  simp [main, index, goPanic]

/-- C10: for every `argv` of at least four elements, no run of `main` ends in
a bounds error of an index or slice expression on `os.Args`; with exactly
four elements `os.Args[4:]` is in bounds and is the empty list. -/
theorem main_args_in_bounds (pkg : Pkg Chain FreqTable) (Args : List String)
    (hlen : 4 ≤ Args.length) :
    BoundsFree (main pkg Args) ∧
    (Args.length = 4 →
      (sliceFrom Args 4 : Run (Event Chain FreqTable) (List String)) = ⟨[], .ok []⟩) := by
  match Args, hlen with
  | a0 :: a1 :: a2 :: a3 :: rest, _ =>
    constructor
    · by_cases hg : a1 = "Generate" ∨ a1 = "generate"
      · cases hn : Atoi a3 with
        | none =>
          intro e he
          simp [main, index, hg, hn, goPanic] at he
          subst he; rfl
        | some n =>
          rw [main_generate_unfold pkg a0 a1 a2 a3 rest n hg hn]
          refine boundsFree_bind _ _ ?_ fun _ => boundsFree_bind _ _ (boundsFree_call _ _) fun _ =>
            boundsFree_bind _ _ (boundsFree_call _ _) fun _ => boundsFree_call _ _
          intro e he; simp at he
      · by_cases hr : a1 = "Read" ∨ a1 = "read"
        · cases hp : Atoi a2 with
          | none =>
            intro e he
            simp [main, index, hg, hr, hp, goPanic] at he
            subst he; rfl
          | some p =>
            rw [main_train_unfold pkg a0 a1 a2 a3 rest p hr hp]
            refine boundsFree_bind _ _ ?_ fun _ => boundsFree_bind _ _ (boundsFree_call _ _) fun _ =>
              boundsFree_bind _ _ (boundsFree_buildFiles _ _ _) fun _ => ?_
            · intro e he; simp at he
            · exact boundsFree_bind _ _ (boundsFree_call _ _) fun _ =>
                boundsFree_bind _ _ (boundsFree_call _ _) fun _ => boundsFree_call _ _
        · intro e he
          simp [main, index, hg, hr, goPanic] at he
          subst he; rfl
    · intro h4
      have : rest = [] := by
        simpa using h4
      subst this
      simp [sliceFrom]

/-- With four arguments the slice of input files is empty and in bounds. -/
theorem main_args_in_bounds_witness :
    BoundsFree (main demoPkg ["mark", "read", "2", "out.tbl"]) ∧
      (sliceFrom ["mark", "read", "2", "out.tbl"] 4
        : Run (Event DemoChain DemoTable) (List String)) = ⟨[], .ok []⟩ :=
  have h := main_args_in_bounds demoPkg ["mark", "read", "2", "out.tbl"] (by decide)
  ⟨h.1, h.2 rfl⟩

end Claims

end Mark
